import Mathlib

/-!
Shallow embedding of the Ludo rules engine from `MultiAgentLudoEnv.py`
(class `LudoEnv`).  Players and token indices are `Fin 4`; the board
`state` is the 4×4 integer array of token positions; actions and dice
rolls are integers as in the Python source.  The dice value drawn inside
`step` by `np.random.randint(1, 7)` is modelled as an explicit oracle
argument `roll` of the `step` function, since the embedding is a pure
function; everything else follows the source line by line.
-/

namespace Ludo

/-- Python `NUM_PLAYERS = len(Player)`. -/
def NUM_PLAYERS : Nat := 4

/-- Python `NUM_TOKENS = 4`. -/
def NUM_TOKENS : Nat := 4

/-- Python `OUT_OF_BOUNDS = -1` (the bench sentinel). -/
def OUT_OF_BOUNDS : Int := -1

/-- Python `START_SQUARE = 0`. -/
def START_SQUARE : Int := 0

/-- Python `FINAL_SQUARE = 58`. -/
def FINAL_SQUARE : Int := 58

/-- A board: position of each token of each player, mirroring the numpy
array `self.state` of shape (NUM_PLAYERS, NUM_TOKENS). -/
def Board : Type := Fin 4 → Fin 4 → Int

/-- Python `list(range(a, b))` on integers. -/
def pyRange (a b : Int) : List Int :=
  (List.range (b - a).toNat).map (fun i => a + (i : Int))

/-- Python `self.start_positions = [0, 13, 26, 39]`. -/
def start_positions : List Int := [0, 13, 26, 39]

/-- Lookup `self.start_positions[player_index]`. -/
def start_position (p : Fin 4) : Int := start_positions.getD p.val 0

/-- Python `self.home_stretches`, the literal per-player table
`[range(51,57), range(12,18), range(25,31), range(38,44)]`. -/
def home_stretches : List (List Int) :=
  [pyRange 51 57, pyRange 12 18, pyRange 25 31, pyRange 38 44]

/-- Lookup `self.home_stretches[player_index]`. -/
def home_stretch (p : Fin 4) : List Int := home_stretches.getD p.val []

/-- Write position `v` into token `t` of player `p`
(`self.state[p][t] = v`). -/
def updateTok (board : Board) (p t : Fin 4) (v : Int) : Board :=
  fun p' t' => if p' = p ∧ t' = t then v else board p' t'

/-- Method `_calculate_new_position(self, current_pos, steps)` for the acting
player `pi` (the Python method reads the player index from
`self.agent_selection`).  Python `%` on a positive modulus is Euclidean
remainder, hence `Int.emod`. -/
def calculate_new_position (pi : Fin 4) (current_pos steps : Int) : Int :=
  if current_pos < 52 then
    -- On the main track
    let new_pos := Int.emod (current_pos + steps) 52
    if new_pos ∈ home_stretch pi then
      -- Enter home stretch
      52 + (new_pos - (home_stretch pi).headD 0)
    else
      new_pos
  else if current_pos < 57 then
    -- In the home stretch, cap at 58 (finished)
    min (current_pos + steps) 58
  else
    current_pos  -- Already finished

/-- Inner loop of `_check_capture`: first piece of player `p` standing
exactly at `position` (`for piece in range(NUM_TOKENS)` unrolled, the
loop returns at the first hit). -/
def findPiece (board : Board) (p : Fin 4) (position : Int) : Option (Fin 4) :=
  if board p 0 = position then some 0
  else if board p 1 = position then some 1
  else if board p 2 = position then some 2
  else if board p 3 = position then some 3
  else none

/-- One iteration of the outer loop of `_check_capture`: player `p` is
scanned only when `p != current_player_index`. -/
def oppCapture (board : Board) (me p : Fin 4) (position : Int) :
    Option (Fin 4 × Fin 4) :=
  if p = me then none
  else (findPiece board p position).map (fun t => (p, t))

/-- The full scan order of `_check_capture`: players 0,1,2,3 in order,
stopping at the first opposing piece found at `position`. -/
def findOpp (board : Board) (me : Fin 4) (position : Int) :
    Option (Fin 4 × Fin 4) :=
  (oppCapture board me 0 position).orElse fun _ =>
    (oppCapture board me 1 position).orElse fun _ =>
      (oppCapture board me 2 position).orElse fun _ =>
        oppCapture board me 3 position

/-- Method `_check_capture(self, position)`: returns the mutated board together
with the Python return value.  Start squares are safe; otherwise the
first opposing piece equal to `position` is sent back to the bench and
the scan stops. -/
def check_capture (board : Board) (me : Fin 4) (position : Int) :
    Board × Option (Fin 4 × Fin 4) :=
  if position ∈ start_positions then (board, none)
  else
    match findOpp board me position with
    | some pt => (updateTok board pt.1 pt.2 OUT_OF_BOUNDS, some pt)
    | none => (board, none)

/-- The `action == 0 and dice_roll == 6` branch of `step`: the
`for token in range(NUM_TOKENS) ... break` loop unrolled for the fixed
four tokens — the first bench token enters at the player's start square. -/
def enterToken (board : Board) (pi : Fin 4) : Board :=
  if board pi 0 = OUT_OF_BOUNDS then updateTok board pi 0 (start_position pi)
  else if board pi 1 = OUT_OF_BOUNDS then updateTok board pi 1 (start_position pi)
  else if board pi 2 = OUT_OF_BOUNDS then updateTok board pi 2 (start_position pi)
  else if board pi 3 = OUT_OF_BOUNDS then updateTok board pi 3 (start_position pi)
  else board

/-- The `1 <= action <= 4` branch of `step` for token `t = action - 1`:
move the token if it is on the board, then run capture detection at the
landing square; returns the new board and this turn's reward
(+1 capture, +2 reaching `FINAL_SQUARE`, cumulative). -/
def moveToken (board : Board) (pi t : Fin 4) (roll : Int) : Board × Int :=
  if board pi t ≠ OUT_OF_BOUNDS then
    let new_pos := calculate_new_position pi (board pi t) roll
    let board1 := updateTok board pi t new_pos
    let cap := check_capture board1 pi new_pos
    let r1 : Int := if cap.2.isSome then 1 else 0
    let r2 : Int := if new_pos = FINAL_SQUARE then 2 else 0
    (cap.1, r1 + r2)
  else (board, 0)

/-- The action dispatch of `step` (lines 77–93): board update and reward
for the acting player `pi`, given the drawn dice value `roll`. -/
def applyAction (board : Board) (pi : Fin 4) (action roll : Int) :
    Board × Int :=
  if action = 0 ∧ roll = 6 then
    (enterToken board pi, 0)
  else if h : 1 ≤ action ∧ action ≤ 4 then
    moveToken board pi ⟨(action - 1).toNat, by omega⟩ roll
  else
    (board, 0)

/-- Method `_check_game_over`: some player has all four pieces at
`FINAL_SQUARE` (`any(np.all(pieces == FINAL_SQUARE) ...)`). -/
def check_game_over (board : Board) : Bool :=
  (List.finRange 4).any fun p =>
    (List.finRange 4).all fun t => board p t == FINAL_SQUARE

/-- Modelled from the spec: the turn pointer advances "to the next
player in fixed round-robin order".  (The Python source delegates this
to the external pettingzoo `agent_selector`, which is not part of this
repository.) -/
def nextAgent (p : Fin 4) : Fin 4 := p + 1

/-- The mutable environment fields of `LudoEnv` that the rules engine
touches: board, turn pointer, last roll, per-agent rewards and done
flags. -/
structure EnvState where
  state : Board
  agent_selection : Fin 4
  dice_roll : Int
  rewards : Fin 4 → Int
  cumulative_rewards : Fin 4 → Int
  dones : Fin 4 → Bool

/-- Method `reset(self, seed=None, options=None)`: all tokens on the bench,
red (index 0) to move, roll 0, all rewards 0, all done flags false.
The `seed` argument is accepted and ignored, exactly as in the source
(it is never passed to any random-number generator). -/
def reset (seed : Option Int) : EnvState :=
  { state := fun _ _ => OUT_OF_BOUNDS
    agent_selection := 0
    dice_roll := 0
    rewards := fun _ => 0
    cumulative_rewards := fun _ => 0
    dones := fun _ => false }

/-- Method `step(self, action)`.  The value `roll` is the draw
`np.random.randint(1, 7)` performed at the top of `step`; it is an
explicit oracle argument here because the embedding is a pure function.
If the acting agent is already done the source returns through the
external `pettingzoo` helper `_was_done_step`, which performs adapter
bookkeeping only and writes none of the fields modelled here. -/
def step (s : EnvState) (action roll : Int) : EnvState :=
  if s.dones s.agent_selection then s
  else
    let pi := s.agent_selection
    let res := applyAction s.state pi action roll
    let game_over := check_game_over res.1
    { state := res.1
      agent_selection := if game_over then s.agent_selection else nextAgent pi
      dice_roll := roll
      rewards := fun a => if a = pi then res.2 else s.rewards a
      cumulative_rewards := fun a =>
        if a = pi then s.cumulative_rewards a + res.2 else s.cumulative_rewards a
      dones := if game_over then (fun _ => true) else s.dones }

/-- Method `_mask_actions(self, agent)`: the 5-slot 0/1 legality vector, from
the board and the last roll. -/
def mask_actions (board : Board) (dice_roll : Int) (agent : Fin 4) :
    Fin 5 → Int :=
  fun i =>
    if h : i.val = 0 then
      if ((List.finRange 4).any fun t => board agent t == OUT_OF_BOUNDS) ∧
          dice_roll = 6 then 1 else 0
    else
      let t : Fin 4 := ⟨i.val - 1, by omega⟩
      if START_SQUARE ≤ board agent t ∧
          board agent t ≤ FINAL_SQUARE - dice_roll then 1 else 0

/-- A token position lying in one of the three valid domains: the bench
sentinel, the shared loop [0,51], or the home stretch / terminal range
[52,58]. -/
def validPos (v : Int) : Prop :=
  v = OUT_OF_BOUNDS ∨ (0 ≤ v ∧ v ≤ 51) ∨ (52 ≤ v ∧ v ≤ 58)

/-- Every token of every player has a valid position. -/
def validBoard (board : Board) : Prop :=
  ∀ p t : Fin 4, validPos (board p t)

/-- States reachable by the engine: a fresh `reset` followed by any
sequence of `step` calls whose internal dice draw is in [1,6]. -/
inductive Reachable : EnvState → Prop
  | reset (seed : Option Int) : Reachable (reset seed)
  | step (s : EnvState) (action roll : Int) (hr : Reachable s)
      (h1 : 1 ≤ roll) (h6 : roll ≤ 6) : Reachable (step s action roll)

/-- A board exhibiting capture at a home-stretch landing: red's token 0
on shared-loop square 50, green's token 0 at home-stretch position 52
(the first cell of green's private lane), all other tokens benched. -/
def captureDemoBoard : Board := fun p t =>
  if p = 0 ∧ t = 0 then 50
  else if p = 1 ∧ t = 0 then 52
  else OUT_OF_BOUNDS

/-- The environment holding `captureDemoBoard` with red to move and no
done flags set. -/
def captureDemoState : EnvState :=
  { state := captureDemoBoard
    agent_selection := 0
    dice_roll := 0
    rewards := fun _ => 0
    cumulative_rewards := fun _ => 0
    dones := fun _ => false }

/-!  Helper lemmas about the embedded operations.  -/

/-- Unfolding of `calculate_new_position` with the let-bindings expanded. -/
lemma calculate_new_position_def (pi : Fin 4) (p roll : Int) :
    calculate_new_position pi p roll =
      if p < 52 then
        (if Int.emod (p + roll) 52 ∈ home_stretch pi then
          52 + (Int.emod (p + roll) 52 - (home_stretch pi).headD 0)
        else Int.emod (p + roll) 52)
      else if p < 57 then min (p + roll) 58
      else p := rfl

/-- Every value of a player's home-entry table lies within 5 cells of
the table's first value. -/
lemma home_stretch_offset (pi : Fin 4) (v : Int) (hv : v ∈ home_stretch pi) :
    (home_stretch pi).headD 0 ≤ v ∧ v ≤ (home_stretch pi).headD 0 + 5 := by
  have h : ∀ u ∈ home_stretch pi,
      (home_stretch pi).headD 0 ≤ u ∧ u ≤ (home_stretch pi).headD 0 + 5 := by
    fin_cases pi <;> decide
  exact h v hv

/-- Advancing a non-bench in-range position by a dice roll in [1,6]
lands in [0, 58]. -/
lemma calculate_new_position_range (pi : Fin 4) (p roll : Int)
    (h0 : 0 ≤ p) (h58 : p ≤ 58) (h1 : 1 ≤ roll) (h6 : roll ≤ 6) :
    0 ≤ calculate_new_position pi p roll ∧ calculate_new_position pi p roll ≤ 58 := by
  rw [calculate_new_position_def]
  split
  · split
    · rename_i hmem
      have := home_stretch_offset pi _ hmem
      omega
    · have hb1 : 0 ≤ Int.emod (p + roll) 52 := Int.emod_nonneg _ (by omega)
      have hb2 : Int.emod (p + roll) 52 < 52 := Int.emod_lt_of_pos _ (by omega)
      omega
  · split
    · rw [min_def]; split <;> omega
    · omega

/-- A value in [0, 58] is a valid position. -/
lemma validPos_of_range {v : Int} (h0 : 0 ≤ v) (h58 : v ≤ 58) : validPos v := by
  unfold validPos OUT_OF_BOUNDS
  omega

/-- Writing a valid position preserves board validity. -/
lemma updateTok_valid (board : Board) (hb : validBoard board) (p t : Fin 4)
    {v : Int} (hv : validPos v) : validBoard (updateTok board p t v) := by
  intro p' t'
  unfold updateTok
  split
  · exact hv
  · exact hb p' t'

/-- Entering a token from the bench preserves board validity. -/
lemma enterToken_valid (board : Board) (hb : validBoard board) (pi : Fin 4) :
    validBoard (enterToken board pi) := by
  have hs : 0 ≤ start_position pi ∧ start_position pi ≤ 51 := by
    fin_cases pi <;> decide
  have hs' : validPos (start_position pi) := Or.inr (Or.inl hs)
  unfold enterToken
  split
  · exact updateTok_valid board hb _ _ hs'
  · split
    · exact updateTok_valid board hb _ _ hs'
    · split
      · exact updateTok_valid board hb _ _ hs'
      · split
        · exact updateTok_valid board hb _ _ hs'
        · exact hb

/-- Capture detection only ever benches a token, so it preserves board
validity. -/
lemma check_capture_fst_valid (board : Board) (hb : validBoard board)
    (me : Fin 4) (position : Int) :
    validBoard (check_capture board me position).1 := by
  unfold check_capture
  split
  · exact hb
  · cases hfo : findOpp board me position with
    | none => simp only [hfo]; exact hb
    | some pt => simp only [hfo]; exact updateTok_valid board hb _ _ (Or.inl rfl)

/-- Moving a token preserves board validity for dice rolls in [1,6]. -/
lemma moveToken_valid (board : Board) (hb : validBoard board) (pi t : Fin 4)
    (roll : Int) (h1 : 1 ≤ roll) (h6 : roll ≤ 6) :
    validBoard (moveToken board pi t roll).1 := by
  unfold moveToken
  split
  · rename_i hne
    have hv := hb pi t
    have hrange : 0 ≤ board pi t ∧ board pi t ≤ 58 := by
      unfold validPos at hv
      unfold OUT_OF_BOUNDS at hv hne
      omega
    have hcalc := calculate_new_position_range pi (board pi t) roll hrange.1 hrange.2 h1 h6
    show validBoard (check_capture
      (updateTok board pi t (calculate_new_position pi (board pi t) roll)) pi
      (calculate_new_position pi (board pi t) roll)).1
    exact check_capture_fst_valid _
      (updateTok_valid board hb pi t (validPos_of_range hcalc.1 hcalc.2)) pi _
  · exact hb

/-- The action dispatch preserves board validity for dice rolls in [1,6]. -/
lemma applyAction_fst_valid (board : Board) (hb : validBoard board) (pi : Fin 4)
    (action roll : Int) (h1 : 1 ≤ roll) (h6 : roll ≤ 6) :
    validBoard (applyAction board pi action roll).1 := by
  unfold applyAction
  split
  · exact enterToken_valid board hb pi
  · split
    · exact moveToken_valid board hb pi _ roll h1 h6
    · exact hb

/-- One `step` preserves board validity for dice rolls in [1,6]. -/
lemma step_valid (s : EnvState) (hv : validBoard s.state) (action roll : Int)
    (h1 : 1 ≤ roll) (h6 : roll ≤ 6) : validBoard (step s action roll).state := by
  by_cases hd : s.dones s.agent_selection = true
  · simpa [step, hd] using hv
  · unfold step
    rw [if_neg hd]
    exact applyAction_fst_valid s.state hv _ action roll h1 h6

/-- Method `_check_game_over` holds exactly when some player has all four
tokens at `FINAL_SQUARE`. -/
lemma check_game_over_iff (board : Board) :
    check_game_over board = true ↔
      ∃ p : Fin 4, ∀ t : Fin 4, board p t = FINAL_SQUARE := by
  simp [check_game_over, List.any_eq_true, List.all_eq_true]

/-- On a live turn (acting agent not done) the stepped board is the
action dispatch result. -/
lemma step_state_live (s : EnvState) (action roll : Int)
    (hd : s.dones s.agent_selection = false) :
    (step s action roll).state =
      (applyAction s.state s.agent_selection action roll).1 := by
  unfold step
  rw [if_neg (by simp [hd])]

/-- On a live turn the stepped done flags are all-true exactly under the
game-over check of the new board, otherwise unchanged. -/
lemma step_dones_live (s : EnvState) (action roll : Int)
    (hd : s.dones s.agent_selection = false) :
    (step s action roll).dones =
      if check_game_over (applyAction s.state s.agent_selection action roll).1
      then (fun _ => true) else s.dones := by
  unfold step
  rw [if_neg (by simp [hd])]

/-- Evaluation of the mask at slot 0 (enter-from-bench). -/
lemma mask_actions_zero (board : Board) (dice_roll : Int) (agent : Fin 4) :
    mask_actions board dice_roll agent 0 =
      if ((List.finRange 4).any fun t => board agent t == OUT_OF_BOUNDS) ∧
          dice_roll = 6 then 1 else 0 := rfl

/-- Evaluation of the mask at slot k+1 (move-token-k). -/
lemma mask_actions_succ (board : Board) (dice_roll : Int) (agent : Fin 4)
    (k : Fin 4) :
    mask_actions board dice_roll agent k.succ =
      if START_SQUARE ≤ board agent k ∧
          board agent k ≤ FINAL_SQUARE - dice_roll then 1 else 0 := rfl

/-!  Claim theorems.  -/

/-- Claim C1: the spec states that a move landing in the home-stretch /
terminal range [52, 58] never captures, never benches an opposing token
and never grants the +1 capture reward.  The code violates this: red
moving its token from shared-loop square 50 with roll 1 is redirected to
home-stretch position 52, and `_check_capture(52)` then benches green's
token sitting at numeric position 52 inside green's own private home
stretch, granting red a +1 capture reward. -/
theorem C1_home_stretch_landing_captures :
    calculate_new_position 0 50 1 = 52 ∧
    (52 : Int) ≥ 52 ∧ (52 : Int) ≤ 58 ∧
    captureDemoState.state 1 0 = 52 ∧
    (step captureDemoState 1 1).state 1 0 = OUT_OF_BOUNDS ∧
    (step captureDemoState 1 1).rewards 0 = 1 := by
  refine ⟨by decide, by decide, by decide, by decide, by decide, by decide⟩

/-- Claim C2: the position-advance function, for every roll in [1,6]:
on the shared loop [0,52) it is `(p + roll) mod 52` with home-entry
redirection to `52 + (candidate - first table value)`; in the home
stretch `52 ≤ p < 57` it is `min (p + roll) 58`; at the finished cell
`p = 58` the token is unchanged. -/
theorem C2_position_advance_cases (pi : Fin 4) (p roll : Int)
    (h1 : 1 ≤ roll) (h6 : roll ≤ 6) :
    (0 ≤ p → p < 52 → calculate_new_position pi p roll =
      (if Int.emod (p + roll) 52 ∈ home_stretch pi then
        52 + (Int.emod (p + roll) 52 - (home_stretch pi).headD 0)
      else Int.emod (p + roll) 52)) ∧
    (52 ≤ p → p < 57 → calculate_new_position pi p roll = min (p + roll) 58) ∧
    (p = 58 → calculate_new_position pi p roll = p) := by
  rw [calculate_new_position_def]
  refine ⟨fun h0 h52 => ?_, fun ha hb => ?_, fun h58 => ?_⟩
  · rw [if_pos h52]
  · rw [if_neg (by omega), if_pos hb]
  · subst h58
    rw [if_neg (by omega), if_neg (by omega)]

/-- Witness for C2 at the spec's own concrete scenario: a token at
home-stretch position 55 with roll 3 clamps to `min 58 58 = 58`. -/
theorem C2_position_advance_cases_witness :
    calculate_new_position 0 55 3 = min (55 + 3) 58 :=
  (C2_position_advance_cases 0 55 3 (by decide) (by decide)).2.1
    (by decide) (by decide)

/-- Claim C3: red's home-entry table is [51, 52, 53, 54, 55, 56]; five
of its six values fall outside the shared-loop domain [0, 51]; since the
shared-loop candidate `(p + roll) mod 52` always lies in [0, 51], red's
home-entry redirection fires iff the candidate equals 51, and then
yields home-stretch position 52 — a single-cell window, while each of
the other three players' tables lies entirely inside [0, 51] (a full
six-cell window). -/
theorem C3_red_single_cell_entry_window :
    home_stretch 0 = [51, 52, 53, 54, 55, 56] ∧
    ((home_stretch 0).filter (fun v => decide (¬(0 ≤ v ∧ v ≤ 51)))).length = 5 ∧
    (∀ p roll : Int, 0 ≤ p → p < 52 →
      (Int.emod (p + roll) 52 ∈ home_stretch 0 ↔ Int.emod (p + roll) 52 = 51)) ∧
    (∀ p roll : Int, 0 ≤ p → p < 52 → Int.emod (p + roll) 52 = 51 →
      calculate_new_position 0 p roll = 52) ∧
    (∀ i : Fin 4, i ≠ 0 → ∀ v ∈ home_stretch i, 0 ≤ v ∧ v ≤ 51) := by
  have hs0 : home_stretch 0 = [51, 52, 53, 54, 55, 56] := by decide
  refine ⟨hs0, by decide, ?_, ?_, by decide⟩
  · intro p roll h0 h52
    have hb1 : 0 ≤ Int.emod (p + roll) 52 := Int.emod_nonneg _ (by omega)
    have hb2 : Int.emod (p + roll) 52 < 52 := Int.emod_lt_of_pos _ (by omega)
    rw [hs0]
    simp only [List.mem_cons, List.not_mem_nil, or_false]
    omega
  · intro p roll h0 h52 hc
    rw [calculate_new_position_def, if_pos h52, hc, hs0]
    decide

/-- Witness for C3: a red token at square 50 rolling 1 has candidate 51
and is redirected to home-stretch position 52. -/
theorem C3_red_single_cell_entry_window_witness :
    calculate_new_position 0 50 1 = 52 :=
  C3_red_single_cell_entry_window.2.2.2.1 50 1 (by decide) (by decide) (by decide)

/-- Claim C4: the legality mask is a 5-slot 0/1 vector; slot 0 is 1 iff
the roll equals 6 and some token of the player is on the bench; slot
k+1 is 1 iff token k is off the bench and its position is at most
`FINAL_SQUARE - roll` (no overshoot past the terminal cell). -/
theorem C4_action_mask (board : Board) (roll : Int) (agent : Fin 4)
    (hv : ∀ t : Fin 4, validPos (board agent t)) :
    (∀ i : Fin 5, mask_actions board roll agent i = 0 ∨
      mask_actions board roll agent i = 1) ∧
    (mask_actions board roll agent 0 = 1 ↔
      roll = 6 ∧ ∃ t : Fin 4, board agent t = OUT_OF_BOUNDS) ∧
    (∀ k : Fin 4, mask_actions board roll agent k.succ = 1 ↔
      (board agent k ≠ OUT_OF_BOUNDS ∧ board agent k ≤ FINAL_SQUARE - roll)) := by
  have hany : (((List.finRange 4).any fun t => board agent t == OUT_OF_BOUNDS) = true)
      ↔ (∃ t : Fin 4, board agent t = OUT_OF_BOUNDS) := by
    simp [List.any_eq_true]
  refine ⟨?_, ?_, ?_⟩
  · intro i
    rcases Fin.eq_zero_or_eq_succ i with h | ⟨k, h⟩
    · subst h
      rw [mask_actions_zero]
      split
      · exact Or.inr rfl
      · exact Or.inl rfl
    · subst h
      rw [mask_actions_succ]
      split
      · exact Or.inr rfl
      · exact Or.inl rfl
  · rw [mask_actions_zero]
    split
    · rename_i hc
      simp only [true_iff]
      exact ⟨hc.2, hany.mp hc.1⟩
    · rename_i hc
      constructor
      · intro h
        exact absurd h (by decide)
      · rintro ⟨h6, hex⟩
        exact absurd ⟨hany.mpr hex, h6⟩ hc
  · intro k
    rw [mask_actions_succ]
    have hvk := hv k
    unfold validPos at hvk
    unfold OUT_OF_BOUNDS at hvk ⊢
    unfold START_SQUARE FINAL_SQUARE
    split
    · rename_i hc
      constructor
      · intro _
        omega
      · intro _
        rfl
    · rename_i hc
      constructor
      · intro h
        exact absurd h (by decide)
      · intro h
        exact absurd (by omega) hc

/-- Witness for C4 on the fresh board (all tokens benched) with roll 6:
slot 0 reads 1. -/
theorem C4_action_mask_witness :
    mask_actions (fun _ _ => OUT_OF_BOUNDS) 6 0 0 = 1 :=
  ((C4_action_mask (fun _ _ => OUT_OF_BOUNDS) 6 0 (fun _ => Or.inl rfl)).2.1).mpr
    ⟨rfl, 0, rfl⟩

/-- Claim C5: applying action 0 (enter) on a live turn: with roll 6 and
a bench token available, exactly the lowest-index bench token of the
acting player moves to the player's start square and nothing else
changes; with roll ≠ 6 or no bench token, the board is left completely
unchanged (a pass, not an error). -/
theorem C5_enter_action (s : EnvState) (roll : Int)
    (hnd : s.dones s.agent_selection = false) :
    ((roll = 6 ∧ ∃ t : Fin 4, s.state s.agent_selection t = OUT_OF_BOUNDS) →
      ∃ t0 : Fin 4,
        s.state s.agent_selection t0 = OUT_OF_BOUNDS ∧
        (∀ t' : Fin 4, t' < t0 → s.state s.agent_selection t' ≠ OUT_OF_BOUNDS) ∧
        (step s 0 roll).state =
          updateTok s.state s.agent_selection t0 (start_position s.agent_selection)) ∧
    ((roll ≠ 6 ∨ ∀ t : Fin 4, s.state s.agent_selection t ≠ OUT_OF_BOUNDS) →
      (step s 0 roll).state = s.state) := by
  have hstate : (step s 0 roll).state =
      (applyAction s.state s.agent_selection 0 roll).1 := by
    unfold step
    rw [if_neg (by simp [hnd])]
  by_cases h6 : roll = 6
  · subst h6
    have happ : (applyAction s.state s.agent_selection 0 6).1 =
        enterToken s.state s.agent_selection := by
      unfold applyAction
      rw [if_pos ⟨rfl, rfl⟩]
    rw [happ] at hstate
    constructor
    · rintro ⟨-, t, ht⟩
      by_cases h0 : s.state s.agent_selection 0 = OUT_OF_BOUNDS
      · refine ⟨0, h0, ?_, ?_⟩
        · intro t' ht'
          exact absurd (show t'.val < 0 from ht') (by omega)
        · rw [hstate]
          unfold enterToken
          rw [if_pos h0]
      · by_cases hone : s.state s.agent_selection 1 = OUT_OF_BOUNDS
        · refine ⟨1, hone, ?_, ?_⟩
          · intro t' ht'
            fin_cases t'
            · exact h0
            · exact absurd ht' (by decide)
            · exact absurd ht' (by decide)
            · exact absurd ht' (by decide)
          · rw [hstate]
            unfold enterToken
            rw [if_neg h0, if_pos hone]
        · by_cases htwo : s.state s.agent_selection 2 = OUT_OF_BOUNDS
          · refine ⟨2, htwo, ?_, ?_⟩
            · intro t' ht'
              fin_cases t'
              · exact h0
              · exact hone
              · exact absurd ht' (by decide)
              · exact absurd ht' (by decide)
            · rw [hstate]
              unfold enterToken
              rw [if_neg h0, if_neg hone, if_pos htwo]
          · by_cases hthree : s.state s.agent_selection 3 = OUT_OF_BOUNDS
            · refine ⟨3, hthree, ?_, ?_⟩
              · intro t' ht'
                fin_cases t'
                · exact h0
                · exact hone
                · exact htwo
                · exact absurd ht' (by decide)
              · rw [hstate]
                unfold enterToken
                rw [if_neg h0, if_neg hone, if_neg htwo, if_pos hthree]
            · exfalso
              fin_cases t
              · exact h0 ht
              · exact hone ht
              · exact htwo ht
              · exact hthree ht
    · rintro (h | hno)
      · exact absurd rfl h
      · rw [hstate]
        unfold enterToken
        rw [if_neg (hno 0), if_neg (hno 1), if_neg (hno 2), if_neg (hno 3)]
  · constructor
    · rintro ⟨h, -⟩
      exact absurd h h6
    · rintro -
      rw [hstate]
      unfold applyAction
      rw [if_neg (by simp [h6]), dif_neg (by omega)]

/-- Witness for C5: from the fresh board with action 0 and roll 1
(≠ 6) the board is unchanged. -/
theorem C5_enter_action_witness :
    (step (reset none) 0 1).state = (reset none).state :=
  (C5_enter_action (reset none) 1 rfl).2 (Or.inl (by decide))

/-- Claim C6: in every reachable engine state every token position lies
in {-1} ∪ [0,51] ∪ [52,58], and any valid position belongs to exactly
one of the three domains. -/
theorem C6_reachable_positions_valid (s : EnvState) (hs : Reachable s) :
    validBoard s.state ∧
    (∀ v : Int, validPos v →
      (v = OUT_OF_BOUNDS ∧ ¬(0 ≤ v ∧ v ≤ 51) ∧ ¬(52 ≤ v ∧ v ≤ 58)) ∨
      (v ≠ OUT_OF_BOUNDS ∧ (0 ≤ v ∧ v ≤ 51) ∧ ¬(52 ≤ v ∧ v ≤ 58)) ∨
      (v ≠ OUT_OF_BOUNDS ∧ ¬(0 ≤ v ∧ v ≤ 51) ∧ (52 ≤ v ∧ v ≤ 58))) := by
  constructor
  · induction hs with
    | reset seed => intro p t; exact Or.inl rfl
    | step s action roll hr h1 h6 ih => exact step_valid s ih action roll h1 h6
  · intro v hv
    unfold validPos at hv
    unfold OUT_OF_BOUNDS at hv ⊢
    omega

/-- Witness for C6 at the freshly reset state. -/
theorem C6_reachable_positions_valid_witness :
    validBoard (reset none).state ∧
    (∀ v : Int, validPos v →
      (v = OUT_OF_BOUNDS ∧ ¬(0 ≤ v ∧ v ≤ 51) ∧ ¬(52 ≤ v ∧ v ≤ 58)) ∨
      (v ≠ OUT_OF_BOUNDS ∧ (0 ≤ v ∧ v ≤ 51) ∧ ¬(52 ≤ v ∧ v ≤ 58)) ∨
      (v ≠ OUT_OF_BOUNDS ∧ ¬(0 ≤ v ∧ v ≤ 51) ∧ (52 ≤ v ∧ v ≤ 58))) :=
  C6_reachable_positions_valid (reset none) (Reachable.reset none)

/-- Claim C7: from a state with no done flag set, a `step` sets all four
done flags true exactly when some single player has all four tokens at
the terminal cell 58 in the resulting board; and a done flag, once true,
is never cleared by any later `step` (only `reset` clears it). -/
theorem C7_termination_flags (s : EnvState) (action roll : Int) :
    ((∀ p : Fin 4, s.dones p = false) →
      ((∀ p : Fin 4, (step s action roll).dones p = true) ↔
        ∃ p : Fin 4, ∀ t : Fin 4, (step s action roll).state p t = FINAL_SQUARE)) ∧
    (∀ p : Fin 4, s.dones p = true → (step s action roll).dones p = true) := by
  constructor
  · intro hall
    have hnd : s.dones s.agent_selection = false := hall s.agent_selection
    rw [step_dones_live s action roll hnd, step_state_live s action roll hnd]
    cases hgo : check_game_over (applyAction s.state s.agent_selection action roll).1 with
    | false =>
      rw [if_neg (by simp)]
      constructor
      · intro h
        exact absurd (h 0) (by simp [hall 0])
      · intro hex
        exact absurd ((check_game_over_iff _).mpr hex) (by simp [hgo])
    | true =>
      rw [if_pos rfl]
      constructor
      · intro _
        exact (check_game_over_iff _).mp hgo
      · intro _ p
        rfl
  · intro p hp
    by_cases hd : s.dones s.agent_selection = true
    · simp [step, hd, hp]
    · rw [step_dones_live s action roll (by simpa using hd)]
      cases hgo : check_game_over (applyAction s.state s.agent_selection action roll).1 with
      | false =>
        rw [if_neg (by simp)]
        exact hp
      | true =>
        rw [if_pos rfl]

/-- Witness for C7: one step from reset (where no flag is set and no
player has finished) leaves all done flags false, matching the absence
of a finished player. -/
theorem C7_termination_flags_witness :
    (∀ p : Fin 4, (step (reset none) 0 1).dones p = true) ↔
      ∃ p : Fin 4, ∀ t : Fin 4, (step (reset none) 0 1).state p t = FINAL_SQUARE :=
  (C7_termination_flags (reset none) 0 1).1 (fun _ => rfl)

/-- Claim C8 counterexample: the dice roll is not an explicit input of
the source `step(action)` — it is drawn inside `step` from the global
numpy generator — and `reset`'s seed argument is ignored, so outcomes
are not a function of seed and action sequence: with the seed and the
action fixed, two values of the internal draw produce different boards,
while two different seeds produce identical initial states. -/
theorem C8_seed_does_not_determine_outcome :
    reset (some 0) = reset (some 1) ∧
    (1 : Int) ≤ 6 ∧ (6 : Int) ≤ 6 ∧ (1 : Int) ≤ 1 ∧ (1 : Int) ≤ 6 ∧
    step (reset (some 0)) 0 6 ≠ step (reset (some 0)) 0 1 := by
  refine ⟨rfl, by decide, by decide, by decide, by decide, fun h => ?_⟩
  have e1 : (step (reset (some 0)) 0 6).state 0 0 = 0 := by decide
  have e2 : (step (reset (some 0)) 0 1).state 0 0 = -1 := by decide
  rw [h] at e1
  exact absurd (e1.symm.trans e2) (by decide)

/-- Claim C8 amended: the engine's transition is deterministic only
relative to the internally drawn roll: `reset` produces the same state
for every seed (the seed is ignored), and two runs from equal states
with the same action and the same drawn roll yield identical board,
rewards and done flags. -/
theorem C8_deterministic_given_roll :
    (∀ seed1 seed2 : Option Int, reset seed1 = reset seed2) ∧
    (∀ s1 s2 : EnvState, ∀ action roll : Int, s1 = s2 →
      (step s1 action roll).state = (step s2 action roll).state ∧
      (step s1 action roll).rewards = (step s2 action roll).rewards ∧
      (step s1 action roll).dones = (step s2 action roll).dones) := by
  refine ⟨fun _ _ => rfl, fun s1 s2 action roll h => ?_⟩
  subst h
  exact ⟨rfl, rfl, rfl⟩

/-- Witness for C8's amended statement at the fresh state with action 0
and roll 6. -/
theorem C8_deterministic_given_roll_witness :
    (step (reset none) 0 6).state = (step (reset none) 0 6).state ∧
    (step (reset none) 0 6).rewards = (step (reset none) 0 6).rewards ∧
    (step (reset none) 0 6).dones = (step (reset none) 0 6).dones :=
  C8_deterministic_given_roll.2 (reset none) (reset none) 0 6 rfl

/-- Claim C9: a token at home-stretch position 57 is returned unchanged
by the position-advance function for every roll in [1,6] (57 satisfies
neither the shared-loop branch nor the 52 ≤ p < 57 branch), so no
sequence of advances ever moves it — in particular it never reaches the
terminal cell 58. -/
theorem C9_position_57_immovable :
    (∀ pi : Fin 4, ∀ roll : Int, 1 ≤ roll → roll ≤ 6 →
      calculate_new_position pi 57 roll = 57) ∧
    (∀ pi : Fin 4, ∀ rolls : List Int,
      List.foldl (fun p r => calculate_new_position pi p r) 57 rolls = 57) ∧
    (57 : Int) ≠ FINAL_SQUARE := by
  have h57 : ∀ (pi : Fin 4) (roll : Int), calculate_new_position pi 57 roll = 57 := by
    intro pi roll
    rw [calculate_new_position_def]
    rw [if_neg (by omega), if_neg (by omega)]
  refine ⟨fun pi roll _ _ => h57 pi roll, fun pi rolls => ?_, by decide⟩
  induction rolls with
  | nil => rfl
  | cons r rs ih =>
    rw [List.foldl_cons, h57 pi r]
    exact ih

/-- Witness for C9 at roll 6. -/
theorem C9_position_57_immovable_witness :
    calculate_new_position 0 57 6 = 57 :=
  C9_position_57_immovable.1 0 6 (by decide) (by decide)

/-- Claim C10: for players 1, 2, 3 (starts 13, 26, 39) the first value
of the home-entry window is the player's start square minus one, so a
token standing on its own start square is redirected into the home
stretch by every roll in [1,4], landing at
`52 + (start + roll - first window value)`; hence a freshly entered
token can reach the home stretch and finish at 58 without traversing
the shared loop (e.g. roll 2 from the start square, then roll 3). -/
theorem C10_non_red_start_adjacent_to_window :
    (∀ i : Fin 4, i ≠ 0 → (home_stretch i).headD 0 = start_position i - 1) ∧
    (∀ i : Fin 4, i ≠ 0 → ∀ r : Int, 1 ≤ r → r ≤ 4 →
      calculate_new_position i (start_position i) r =
        52 + (start_position i + r - (home_stretch i).headD 0)) ∧
    (∀ i : Fin 4, i ≠ 0 →
      calculate_new_position i (start_position i) 2 = 55 ∧
      calculate_new_position i 55 3 = FINAL_SQUARE) := by
  refine ⟨by decide, ?_, by decide⟩
  intro i hi r h1 h4
  fin_cases i
  · exact absurd rfl hi
  · interval_cases r <;> decide
  · interval_cases r <;> decide
  · interval_cases r <;> decide

/-- Witness for C10: green (index 1) entering at 13 with roll 2 lands
at home-stretch position 55 = 52 + (13 + 2 - 12). -/
theorem C10_non_red_start_adjacent_to_window_witness :
    calculate_new_position 1 (start_position 1) 2 =
      52 + (start_position 1 + 2 - (home_stretch 1).headD 0) :=
  C10_non_red_start_adjacent_to_window.2.1 1 (by decide) 2 (by decide) (by decide)

end Ludo
